import Mathlib

set_option autoImplicit false

/-!
Verification of the S3 storage adapter (`src/s3_storage.rs`) of
libindexfn-s3.  The adapter maps a hierarchical naming scheme onto a flat
object-store key namespace: prefix construction (`make_prefix`), prefix
stripping on listing (`strip_prefix`), key construction on read and write
(`make_key`), paginated listing (`list`), reading (`read_bytes`) and
writing (`write_bytes`), with uniform translation of client failures into
the library's error type.

Rust strings are modelled as lists of characters (`Str`); all characters
involved in the adapter's logic (the separator `/`) are ASCII, so the
byte-level operations of the source coincide with the character-level
operations used here.  The rusoto S3 client is modelled as an explicit
function from requests to responses, and the paginated listing loop is
driven by fuel (one unit per underlying request); `none` means the fuel
did not cover the number of pages the client serves.
-/

/-- Rust `String` / `&str`, as a list of characters. -/
abbrev Str := List Char

/-- The separator character `'/'` used by the adapter. -/
def sep : Char := '/'

/-- Rust `s.ends_with('/')`: the last character is the separator. -/
def endsWithSep (s : Str) : Bool := s.getLast? == some sep

/-- Whether `s` ends with exactly one separator: the last character is the
separator and the one before it (when present) is not. -/
def endsWithExactlyOneSep (s : Str) : Bool :=
  endsWithSep s && !(endsWithSep s.dropLast)

/-- The `S3Storage` struct: bucket and configured prefix.  The `client`
field is not part of the state here; the client is instead passed to each
operation as an explicit function.  The Rust field `prefix` is called
`keyPrefix` because `prefix` is a reserved word in Lean. -/
structure S3Storage where
  bucket : Str
  keyPrefix : Str
deriving DecidableEq

/-- `S3Storage::new`: appends a `'/'` to the prefix when it is non-empty
and does not already end with one. -/
def S3Storage.new (bucket pfx : Str) : S3Storage :=
  ⟨bucket, if !endsWithSep pfx && !pfx.isEmpty then pfx ++ [sep] else pfx⟩

/-- `S3Storage::make_prefix`: the configured prefix concatenated with the
directory name, normalized to end with a separator; `none` when the
combination is empty. -/
def makePrefix (st : S3Storage) (dirName : Str) : Option Str :=
  let s := st.keyPrefix ++ dirName
  if !s.isEmpty then
    some (if !endsWithSep s then s ++ [sep] else s)
  else
    none

/-- `S3Storage::strip_prefix`: removes `makePrefix st dirName` from the
front of `key` (`none` when `key` does not start with it); when
`makePrefix` returns `none` the key is returned unchanged. -/
def stripPrefix (st : S3Storage) (dirName key : Str) : Option Str :=
  match makePrefix st dirName with
  | some p => if p.isPrefixOf key then some (key.drop p.length) else none
  | none => some key

/-- `S3Storage::make_key`: the configured prefix concatenated with the
object name, verbatim (no separator normalization). -/
def makeKey (st : S3Storage) (objName : Str) : Str :=
  if !st.keyPrefix.isEmpty then st.keyPrefix ++ objName else objName

/-- An error of the underlying rusoto client (or of draining a byte
stream), abstracted to its rendered message. -/
abbrev SdkError := Str

/-- Modelled from the spec: libindexfn's `IdxError` is not part of this
repository; the spec describes a single externally visible error kind
`StorageError`, optionally carrying a descriptive message. -/
inductive IdxError where
  | storageError (msg : Str)
deriving DecidableEq

/-- Modelled from the spec: `IdxError::storage_error` wraps an underlying
client error as the kind `StorageError`. -/
def IdxError.storageErrorOf (e : SdkError) : IdxError := .storageError e

/-- Modelled from the spec: `IdxError::storage_error_msg` builds a
`StorageError` from a message. -/
def IdxError.storageErrorMsg (m : Str) : IdxError := .storageError m

/-- Modelled from the spec: the `From<io::Error>` conversion applied by
the `?` operator when draining a get-object body fails; per the spec every
underlying transport failure is translated to `StorageError`. -/
def ioErrorToIdxError (e : SdkError) : IdxError := .storageError e

/-- A listed S3 object: rusoto's `Object`, reduced to the one field the
adapter reads (`key`, optional). -/
structure S3Object where
  key : Option Str
deriving DecidableEq

/-- rusoto's `ListObjectsV2Request`, reduced to the fields the adapter
sets.  The Rust field `prefix` is called `reqPrefix`. -/
structure ListObjectsRequest where
  bucket : Str
  reqPrefix : Option Str
  continuationToken : Option Str
deriving DecidableEq

/-- rusoto's `ListObjectsV2Output`, reduced to the fields the adapter
reads. -/
structure ListObjectsResponse where
  contents : Option (List S3Object)
  nextContinuationToken : Option Str
deriving DecidableEq

/-- The underlying list-objects client: one request in, one response (or a
client error) out. -/
abbrev ListClient := ListObjectsRequest → Except SdkError ListObjectsResponse

/-- A log event emitted by the listing loop (the `warn!` calls of the
source). -/
inductive LogEvent where
  | warnMissingKey (obj : S3Object)
deriving DecidableEq

/-- The inner `for object in objects` loop of `S3Storage::list` over one
page: an entry with a key is prefix-stripped and accumulated (a strip
failure aborts with `storage_error_msg "Could not strip prefix"`); an
entry without a key is skipped. -/
def pageNames (st : S3Storage) (dirName : Str) : List S3Object → Except IdxError (List Str)
  | [] => .ok []
  | o :: rest =>
    match o.key with
    | some key =>
      match stripPrefix st dirName key with
      | some s => (pageNames st dirName rest).map (fun ns => s :: ns)
      | none => .error (IdxError.storageErrorMsg "Could not strip prefix".toList)
    | none => pageNames st dirName rest

/-- The warnings the inner loop logs on one page: one `warnMissingKey` per
entry without a key, in entry order, cut off where a strip failure aborts
the loop. -/
def pageLog (st : S3Storage) (dirName : Str) : List S3Object → List LogEvent
  | [] => []
  | o :: rest =>
    match o.key with
    | some key =>
      match stripPrefix st dirName key with
      | some _ => pageLog st dirName rest
      | none => []
    | none => .warnMissingKey o :: pageLog st dirName rest

/-- One page of `S3Storage::list`: the `if let Some(objects) =
listing.contents` branch (a response without contents contributes no
names). -/
def contentsNames (st : S3Storage) (dirName : Str) (listing : ListObjectsResponse) :
    Except IdxError (List Str) :=
  match listing.contents with
  | some objects => pageNames st dirName objects
  | none => .ok []

/-- The `loop` of `S3Storage::list`, driven by fuel (one unit per
underlying request).  Returns the requests issued in order together with
the accumulated names (or the first error); `none` when the fuel ran out
before a response without a continuation token arrived. -/
def listLoop (client : ListClient) (st : S3Storage) (dirName : Str) :
    ListObjectsRequest → Nat → Option (List ListObjectsRequest × Except IdxError (List Str))
  | _, 0 => none
  | req, fuel + 1 =>
    match client req with
    | .error e => some ([req], .error (IdxError.storageErrorOf e))
    | .ok listing =>
      match contentsNames st dirName listing with
      | .error e => some ([req], .error e)
      | .ok names =>
        match listing.nextContinuationToken with
        | some cont =>
          match listLoop client st dirName { req with continuationToken := some cont } fuel with
          | none => none
          | some (reqs, res) => some (req :: reqs, res.map (fun more => names ++ more))
        | none => some ([req], .ok names)

/-- The initial `ListObjectsV2Request` built by `S3Storage::list`: bucket,
prefix from `makePrefix`, no continuation token. -/
def initReq (st : S3Storage) (dirName : Str) : ListObjectsRequest :=
  { bucket := st.bucket, reqPrefix := makePrefix st dirName, continuationToken := none }

/-- `S3Storage::list`: paginated listing starting from `initReq`. -/
def S3Storage.list (st : S3Storage) (client : ListClient) (dirName : Str) (fuel : Nat) :
    Option (List ListObjectsRequest × Except IdxError (List Str)) :=
  listLoop client st dirName (initReq st dirName) fuel

/-- rusoto's `GetObjectRequest`, reduced to the fields the adapter sets. -/
structure GetObjectRequest where
  bucket : Str
  key : Str
deriving DecidableEq

/-- A byte buffer (`Vec<u8>`), as a list of byte values. -/
abbrev Bytes := List Nat

/-- rusoto's `GetObjectOutput`, reduced to the optional body.  Draining
the body stream (`read_to_end`) yields either the full byte contents or
an I/O error, modelled by the `Except`. -/
structure GetObjectResponse where
  body : Option (Except SdkError Bytes)

/-- The underlying get-object client. -/
abbrev GetClient := GetObjectRequest → Except SdkError GetObjectResponse

/-- `S3Storage::read_bytes`: get the object at `makeKey st objName`; a
client error or a body-drain error becomes `StorageError`; a missing body
becomes `storage_error_msg "Reading from S3 failed: no body returned"`;
otherwise the drained bytes are returned. -/
def S3Storage.readBytes (st : S3Storage) (client : GetClient) (objName : Str) :
    Except IdxError Bytes :=
  match client { bucket := st.bucket, key := makeKey st objName } with
  | .error e => .error (IdxError.storageErrorOf e)
  | .ok resp =>
    match resp.body with
    | some strm =>
      match strm with
      | .ok contents => .ok contents
      | .error e => .error (ioErrorToIdxError e)
    | none => .error (IdxError.storageErrorMsg "Reading from S3 failed: no body returned".toList)

/-- rusoto's `PutObjectRequest`, reduced to the fields the adapter sets. -/
structure PutObjectRequest where
  bucket : Str
  key : Str
  body : Option Bytes
deriving DecidableEq

/-- The underlying put-object client. -/
abbrev PutClient := PutObjectRequest → Except SdkError Unit

/-- `S3Storage::write_bytes`: put the data at `makeKey st name`; a client
error becomes `StorageError`. -/
def S3Storage.writeBytes (st : S3Storage) (client : PutClient) (name : Str) (data : Bytes) :
    Except IdxError Unit :=
  match client { bucket := st.bucket, key := makeKey st name, body := some data } with
  | .error e => .error (IdxError.storageErrorOf e)
  | .ok _ => .ok ()

/-! ## Helper lemmas on the key mapper -/

theorem endsWithSep_iff (s : Str) : endsWithSep s = true ↔ s.getLast? = some sep := by
  simp [endsWithSep]

theorem endsWithSep_concat_sep (s : Str) : endsWithSep (s ++ [sep]) = true := by
  simp [endsWithSep, List.getLast?_concat]

theorem endsWithSep_append (s t : Str) (h : t ≠ []) : endsWithSep (s ++ t) = endsWithSep t := by
  simp [endsWithSep, List.getLast?_append_of_ne_nil _ h]

theorem endsWithExactlyOneSep_concat (s : Str) (h : endsWithSep s = false) :
    endsWithExactlyOneSep (s ++ [sep]) = true := by
  simp [endsWithExactlyOneSep, endsWithSep_concat_sep, List.dropLast_concat, h]

theorem ne_nil_of_endsWithSep (s : Str) (h : endsWithSep s = true) : s ≠ [] := by
  intro hnil
  subst hnil
  simp [endsWithSep] at h

theorem makePrefix_eq_none_iff (st : S3Storage) (d : Str) :
    makePrefix st d = none ↔ st.keyPrefix ++ d = [] := by
  by_cases h : st.keyPrefix ++ d = [] <;> simp [makePrefix, h]

theorem makePrefix_not_sep (st : S3Storage) (d : Str) (hne : st.keyPrefix ++ d ≠ [])
    (h : endsWithSep (st.keyPrefix ++ d) = false) :
    makePrefix st d = some (st.keyPrefix ++ d ++ [sep]) := by
  simp [makePrefix, hne, h]

theorem makePrefix_sep (st : S3Storage) (d : Str)
    (h : endsWithSep (st.keyPrefix ++ d) = true) :
    makePrefix st d = some (st.keyPrefix ++ d) := by
  have hne := ne_nil_of_endsWithSep _ h
  simp [makePrefix, hne, h]

theorem makePrefix_cases (st : S3Storage) (d p : Str) (hp : makePrefix st d = some p) :
    (endsWithSep (st.keyPrefix ++ d) = true ∧ p = st.keyPrefix ++ d) ∨
    (endsWithSep (st.keyPrefix ++ d) = false ∧ p = st.keyPrefix ++ d ++ [sep]) := by
  by_cases h : endsWithSep (st.keyPrefix ++ d) = true
  · rw [makePrefix_sep st d h] at hp
    exact Or.inl ⟨h, (Option.some_injective _ hp).symm⟩
  · have h' : endsWithSep (st.keyPrefix ++ d) = false := by
      cases hb : endsWithSep (st.keyPrefix ++ d)
      · rfl
      · exact absurd hb h
    have hne : st.keyPrefix ++ d ≠ [] := by
      intro hnil
      rw [(makePrefix_eq_none_iff st d).mpr hnil] at hp
      exact Option.noConfusion hp
    rw [makePrefix_not_sep st d hne h'] at hp
    exact Or.inr ⟨h', (Option.some_injective _ hp).symm⟩

theorem makePrefix_endsWithSep (st : S3Storage) (d p : Str) (hp : makePrefix st d = some p) :
    endsWithSep p = true := by
  rcases makePrefix_cases st d p hp with ⟨h, rfl⟩ | ⟨_, rfl⟩
  · exact h
  · exact endsWithSep_concat_sep _

theorem stripPrefix_append (st : S3Storage) (d p s : Str) (hp : makePrefix st d = some p) :
    stripPrefix st d (p ++ s) = some s := by
  simp [stripPrefix, hp, List.isPrefixOf_iff_prefix, List.prefix_append, List.drop_left]

theorem stripPrefix_some (st : S3Storage) (d key p : Str) (hp : makePrefix st d = some p)
    (hpre : p.isPrefixOf key = true) :
    ∃ r, key = p ++ r ∧ stripPrefix st d key = some r := by
  obtain ⟨r, hr⟩ := List.isPrefixOf_iff_prefix.mp hpre
  exact ⟨r, hr.symm, hr ▸ stripPrefix_append st d p r hp⟩

theorem stripPrefix_none_iff (st : S3Storage) (d key p : Str) (hp : makePrefix st d = some p) :
    stripPrefix st d key = none ↔ p.isPrefixOf key = false := by
  by_cases h : p.isPrefixOf key <;> simp [stripPrefix, hp, h]

theorem stripPrefix_of_none (st : S3Storage) (d key : Str) (hp : makePrefix st d = none) :
    stripPrefix st d key = some key := by
  simp [stripPrefix, hp]

/-! ## C4, C5, C6, C10 -/

/-- C4: `make_prefix(dir_name)` returns `None` exactly when
`configured_prefix + dir_name` is empty; otherwise it returns `Some` of
the combination normalized to end with a separator, and when the
combination (in particular when `dir_name`) already ends with the
separator no additional separator is appended. -/
theorem c4_makePrefix_spec (st : S3Storage) (d : Str) :
    (makePrefix st d = none ↔ st.keyPrefix ++ d = []) ∧
    (st.keyPrefix ++ d ≠ [] → ∃ p, makePrefix st d = some p ∧ endsWithSep p = true ∧
      (endsWithSep (st.keyPrefix ++ d) = false → p = st.keyPrefix ++ d ++ [sep]) ∧
      (endsWithSep (st.keyPrefix ++ d) = true → p = st.keyPrefix ++ d) ∧
      (endsWithSep d = true → p = st.keyPrefix ++ d)) := by
  refine ⟨makePrefix_eq_none_iff st d, fun hne => ?_⟩
  by_cases h : endsWithSep (st.keyPrefix ++ d) = true
  · refine ⟨st.keyPrefix ++ d, makePrefix_sep st d h, h, ?_, fun _ => rfl, fun _ => rfl⟩
    intro hfalse
    rw [h] at hfalse
    exact Bool.noConfusion hfalse
  · have h' : endsWithSep (st.keyPrefix ++ d) = false := by
      cases hb : endsWithSep (st.keyPrefix ++ d)
      · rfl
      · exact absurd hb h
    refine ⟨st.keyPrefix ++ d ++ [sep], makePrefix_not_sep st d hne h',
      endsWithSep_concat_sep _, fun _ => rfl, fun ht => absurd ht h, fun hd => ?_⟩
    have hdne : d ≠ [] := ne_nil_of_endsWithSep d hd
    rw [endsWithSep_append st.keyPrefix d hdne, hd] at h'
    exact Bool.noConfusion h'

/-- C5: when `make_prefix(dir_name) = Some p`, `strip_prefix` returns the
remainder of the key after removing the leading `p` and returns `None`
exactly when the key does not start with `p`; when `make_prefix` returns
`None`, `strip_prefix` returns the key unchanged. -/
theorem c5_stripPrefix_spec (st : S3Storage) (d key : Str) :
    (∀ p, makePrefix st d = some p →
      (p.isPrefixOf key = true → ∃ r, key = p ++ r ∧ stripPrefix st d key = some r) ∧
      (stripPrefix st d key = none ↔ p.isPrefixOf key = false)) ∧
    (makePrefix st d = none → stripPrefix st d key = some key) :=
  ⟨fun p hp => ⟨stripPrefix_some st d key p hp, stripPrefix_none_iff st d key p hp⟩,
   stripPrefix_of_none st d key⟩

/-- C6: round-trip law — when `make_prefix(d) = Some p` and the suffix `s`
does not begin with the separator, stripping after prefixing recovers the
suffix exactly: `strip_prefix(d, p ++ s) = Some s`. -/
theorem c6_round_trip (st : S3Storage) (d p s : Str) (hp : makePrefix st d = some p)
    (_hs : s.head? ≠ some sep) :
    stripPrefix st d (p ++ s) = some s :=
  stripPrefix_append st d p s hp

/-- Witness for C6 at concrete inputs. -/
theorem c6_round_trip_witness :
    stripPrefix (S3Storage.new "bkt".toList "p".toList) "dir".toList
      ("p/dir/".toList ++ "x.txt".toList) = some "x.txt".toList :=
  c6_round_trip (S3Storage.new "bkt".toList "p".toList) "dir".toList "p/dir/".toList
    "x.txt".toList (by decide) (by decide)

/-- C10: with `make_prefix(d) = Some p`, listing returns for each
underlying key starting with `p` the entire remainder after `p`, with no
further filtering or normalization: the remainder is recovered verbatim
(it may contain separators), a key equal to `p` yields the empty name,
and a page whose keys are `p ++ sᵢ` yields exactly the names `sᵢ`. -/
theorem c10_listing_names_shape (st : S3Storage) (d p : Str) (suffixes : List Str)
    (hp : makePrefix st d = some p) :
    (∀ s : Str, stripPrefix st d (p ++ s) = some s) ∧
    stripPrefix st d p = some [] ∧
    pageNames st d (suffixes.map (fun s => ⟨some (p ++ s)⟩)) = Except.ok suffixes := by
  refine ⟨fun s => stripPrefix_append st d p s hp, ?_, ?_⟩
  · have h := stripPrefix_append st d p [] hp
    rwa [List.append_nil] at h
  · induction suffixes with
    | nil => rfl
    | cons s ss ih =>
      simp only [List.map_cons, pageNames, stripPrefix_append st d p s hp, ih]
      rfl

/-- Witness for C10 at concrete inputs: the returned names may contain
separators and may be empty. -/
theorem c10_listing_names_shape_witness :
    (∀ s : Str, stripPrefix (S3Storage.new "bkt".toList "p".toList) "notes".toList
        ("p/notes/".toList ++ s) = some s) ∧
    stripPrefix (S3Storage.new "bkt".toList "p".toList) "notes".toList "p/notes/".toList =
      some [] ∧
    pageNames (S3Storage.new "bkt".toList "p".toList) "notes".toList
        (["x/y".toList, [], "a.txt".toList].map (fun s => ⟨some ("p/notes/".toList ++ s)⟩)) =
      Except.ok ["x/y".toList, [], "a.txt".toList] :=
  c10_listing_names_shape (S3Storage.new "bkt".toList "p".toList) "notes".toList
    "p/notes/".toList ["x/y".toList, [], "a.txt".toList] (by decide)

/-! ## C3, C7 (corrected claims), C8, C9 -/

theorem makeKey_eq (st : S3Storage) (x : Str) : makeKey st x = st.keyPrefix ++ x := by
  by_cases hk : st.keyPrefix = [] <;> simp [makeKey, hk]

theorem makePrefix_sep_shape (st : S3Storage) (d : Str) (h : st.keyPrefix ≠ []) :
    ∃ p, makePrefix st d = some p ∧ endsWithSep p = true ∧
      (endsWithSep (st.keyPrefix ++ d) = false → endsWithExactlyOneSep p = true) := by
  have hne : st.keyPrefix ++ d ≠ [] := fun hnil => h (List.append_eq_nil.mp hnil).1
  cases hb : endsWithSep (st.keyPrefix ++ d) with
  | false =>
    exact ⟨_, makePrefix_not_sep st d hne hb, endsWithSep_concat_sep _,
      fun _ => endsWithExactlyOneSep_concat _ hb⟩
  | true =>
    exact ⟨_, makePrefix_sep st d hb, hb, fun hf => Bool.noConfusion hf⟩

/-- Counterexample to C3 as stated: with empty configured prefix,
directory name `""` and leaf name `"a"`, the key built for write/read
from the logical name `"" + "/" + "a"` is `"/a"`, but `make_prefix("")`
is `None`, so `strip_prefix("", "/a") = Some "/a"`, not `Some "a"`. -/
theorem c3_counterexample :
    ¬ stripPrefix (S3Storage.new "bkt".toList []) []
        (makeKey (S3Storage.new "bkt".toList []) ([] ++ [sep] ++ "a".toList)) =
      some "a".toList := by
  decide

/-- C3 (amended): for every directory name `d` that is non-empty and does
not end with the separator, and every leaf name `a`, the key
`make_key(d ++ "/" ++ a)` used by write/read equals `make_prefix(d) ++ a`,
so `strip_prefix(d, make_key(d ++ "/" ++ a)) = Some a`; consequently a
store that persists the written key and serves it on the scoped list
request yields the logical name `a`. -/
theorem c3_write_list_round_trip (st : S3Storage) (d a : Str) (hne : d ≠ [])
    (hsep : endsWithSep d = false) :
    makePrefix st d = some (st.keyPrefix ++ d ++ [sep]) ∧
    makeKey st (d ++ [sep] ++ a) = (st.keyPrefix ++ d ++ [sep]) ++ a ∧
    stripPrefix st d (makeKey st (d ++ [sep] ++ a)) = some a ∧
    (∀ client : ListClient,
      client (initReq st d) = .ok ⟨some [⟨some (makeKey st (d ++ [sep] ++ a))⟩], none⟩ →
      S3Storage.list st client d 1 = some ([initReq st d], .ok [a])) := by
  have hcomb : endsWithSep (st.keyPrefix ++ d) = false := by
    rw [endsWithSep_append st.keyPrefix d hne]
    exact hsep
  have hnemp : st.keyPrefix ++ d ≠ [] := fun hnil => hne (List.append_eq_nil.mp hnil).2
  have h1 : makePrefix st d = some (st.keyPrefix ++ d ++ [sep]) :=
    makePrefix_not_sep st d hnemp hcomb
  have h2 : makeKey st (d ++ [sep] ++ a) = (st.keyPrefix ++ d ++ [sep]) ++ a := by
    rw [makeKey_eq]
    simp [List.append_assoc]
  have h3 : stripPrefix st d (makeKey st (d ++ [sep] ++ a)) = some a := by
    rw [h2]
    exact stripPrefix_append st d _ a h1
  refine ⟨h1, h2, h3, fun client hc => ?_⟩
  have h3' : stripPrefix st d (makeKey st (d ++ sep :: a)) = some a := by
    simpa using h3
  simp [S3Storage.list, listLoop, hc, contentsNames, pageNames, h3', Except.map]

/-- A concrete adapter with empty configured prefix. -/
def stE : S3Storage := S3Storage.new "bkt".toList []

/-- A concrete store that persists the key written for `notes/a.txt` and
serves it on every list request. -/
def clientE : ListClient := fun _ =>
  .ok ⟨some [⟨some (makeKey stE ("notes".toList ++ [sep] ++ "a.txt".toList))⟩], none⟩

/-- Witness for C3 (amended) at the spec's example: write `notes/a.txt`,
then list `notes` over a store that persists the written key. -/
theorem c3_write_list_round_trip_witness :
    stripPrefix stE "notes".toList (makeKey stE ("notes".toList ++ [sep] ++ "a.txt".toList)) =
      some "a.txt".toList ∧
    S3Storage.list stE clientE "notes".toList 1 =
      some ([initReq stE "notes".toList], .ok ["a.txt".toList]) :=
  have h := c3_write_list_round_trip stE "notes".toList "a.txt".toList (by decide) (by decide)
  ⟨h.2.2.1, h.2.2.2 clientE rfl⟩

/-- Counterexample to C7 as stated: constructing with the prefix `"a//"`
keeps it unchanged, so the configured prefix ends with two separator
characters, not exactly one (and is not empty). -/
theorem c7_counterexample :
    ¬ ((S3Storage.new "bkt".toList "a//".toList).keyPrefix = [] ∨
       endsWithExactlyOneSep (S3Storage.new "bkt".toList "a//".toList).keyPrefix = true) := by
  decide

/-- C7 (amended): after construction the configured prefix is either
empty or ends with a separator, and ends with exactly one separator
whenever the supplied prefix did not already end with one; for every
non-empty configured prefix and every directory name `d`, `make_prefix(d)`
ends with a separator, and ends with exactly one whenever the combined
prefix + dir_name did not already end with one (the constructor and
`make_prefix` never append a separator after an existing one). -/
theorem c7_separator_invariant (bucket pfx d : Str) :
    ((S3Storage.new bucket pfx).keyPrefix = [] ∨
      endsWithSep (S3Storage.new bucket pfx).keyPrefix = true) ∧
    (endsWithSep pfx = false →
      (S3Storage.new bucket pfx).keyPrefix = [] ∨
      endsWithExactlyOneSep (S3Storage.new bucket pfx).keyPrefix = true) ∧
    ((S3Storage.new bucket pfx).keyPrefix ≠ [] →
      ∃ p, makePrefix (S3Storage.new bucket pfx) d = some p ∧ endsWithSep p = true ∧
        (endsWithSep ((S3Storage.new bucket pfx).keyPrefix ++ d) = false →
          endsWithExactlyOneSep p = true)) := by
  refine ⟨?_, ?_, fun h => makePrefix_sep_shape (S3Storage.new bucket pfx) d h⟩
  · cases hb : endsWithSep pfx with
    | true =>
      right
      have hq : (S3Storage.new bucket pfx).keyPrefix = pfx := by
        simp [S3Storage.new, hb]
      rw [hq]
      exact hb
    | false =>
      by_cases hp : pfx = []
      · left
        simp [S3Storage.new, hp]
      · right
        have hq : (S3Storage.new bucket pfx).keyPrefix = pfx ++ [sep] := by
          simp [S3Storage.new, hb, hp]
        rw [hq]
        exact endsWithSep_concat_sep pfx
  · intro hb
    by_cases hp : pfx = []
    · left
      simp [S3Storage.new, hp]
    · right
      have hq : (S3Storage.new bucket pfx).keyPrefix = pfx ++ [sep] := by
        simp [S3Storage.new, hb, hp]
      rw [hq]
      exact endsWithExactlyOneSep_concat pfx hb

/-- C8: `read_bytes` issues a get-object request for `make_key(obj_name)`;
a client failure is translated to `StorageError`; a response without a
body fails with `StorageError` (never an empty byte sequence); a present
body is drained fully into memory and returned, and a failure while
draining it is translated to `StorageError` as well. -/
theorem c8_read_bytes_spec (st : S3Storage) (client : GetClient) (objName : Str) :
    (∀ e, client { bucket := st.bucket, key := makeKey st objName } = .error e →
      S3Storage.readBytes st client objName = .error (IdxError.storageError e)) ∧
    (∀ resp, client { bucket := st.bucket, key := makeKey st objName } = .ok resp →
      (resp.body = none →
        S3Storage.readBytes st client objName =
          .error (IdxError.storageErrorMsg "Reading from S3 failed: no body returned".toList) ∧
        ∀ bs : Bytes, S3Storage.readBytes st client objName ≠ .ok bs) ∧
      (∀ bs, resp.body = some (Except.ok bs) →
        S3Storage.readBytes st client objName = .ok bs) ∧
      (∀ e, resp.body = some (Except.error e) →
        S3Storage.readBytes st client objName = .error (IdxError.storageError e))) := by
  refine ⟨fun e he => ?_, fun resp hr => ⟨fun hb => ⟨?_, fun bs => ?_⟩, fun bs hb => ?_, fun e hb => ?_⟩⟩
  · simp [S3Storage.readBytes, he, IdxError.storageErrorOf]
  · simp [S3Storage.readBytes, hr, ‹resp.body = none›]
  · simp [S3Storage.readBytes, hr, ‹resp.body = none›]
  · simp [S3Storage.readBytes, hr, hb]
  · simp [S3Storage.readBytes, hr, hb, ioErrorToIdxError]

/-! ## C9: the missing-key policy of the listing loop -/

theorem pageNames_skip (st : S3Storage) (d : Str) (o : S3Object) (ho : o.key = none)
    (pre post : List S3Object) :
    pageNames st d (pre ++ o :: post) = pageNames st d (pre ++ post) := by
  induction pre with
  | nil => simp [pageNames, ho]
  | cons x xs ih =>
    cases hx : x.key with
    | none => simp only [List.cons_append, pageNames, hx, List.append_eq, ih]
    | some key =>
      cases hs : stripPrefix st d key with
      | none => simp only [List.cons_append, pageNames, hx, hs]
      | some s => simp only [List.cons_append, pageNames, hx, hs, List.append_eq, ih]

theorem pageLog_warn_mem (st : S3Storage) (d : Str) (o : S3Object) (ho : o.key = none)
    (pre post : List S3Object) (ns : List Str) (hpre : pageNames st d pre = Except.ok ns) :
    LogEvent.warnMissingKey o ∈ pageLog st d (pre ++ o :: post) := by
  induction pre generalizing ns with
  | nil => simp [pageLog, ho]
  | cons x xs ih =>
    cases hx : x.key with
    | none =>
      simp only [pageNames, hx] at hpre
      simp only [List.cons_append, pageLog, hx, List.mem_cons]
      exact Or.inr (ih ns hpre)
    | some key =>
      cases hs : stripPrefix st d key with
      | none => simp [pageNames, hx, hs] at hpre
      | some s =>
        simp only [pageNames, hx, hs] at hpre
        cases hrest : pageNames st d xs with
        | error e => simp [hrest, Except.map] at hpre
        | ok ns' =>
          simp only [List.cons_append, pageLog, hx, hs]
          exact ih ns' hrest

/-- C9: an entry without a key is skipped — the listing result over the
page is the same as if the entry were absent, so a missing key never
causes `list` to fail — and, provided processing reaches the entry (the
entries before it succeed), a missing-key warning is logged. -/
theorem c9_missing_key_policy (st : S3Storage) (d : Str) (o : S3Object)
    (pre post : List S3Object) (ns : List Str) (ho : o.key = none)
    (hpre : pageNames st d pre = Except.ok ns) :
    pageNames st d (pre ++ o :: post) = pageNames st d (pre ++ post) ∧
    LogEvent.warnMissingKey o ∈ pageLog st d (pre ++ o :: post) :=
  ⟨pageNames_skip st d o ho pre post, pageLog_warn_mem st d o ho pre post ns hpre⟩

/-- Witness for C9 at concrete inputs: a keyless entry between two keyed
entries is skipped and warned about. -/
theorem c9_missing_key_policy_witness :
    pageNames stE "notes".toList
        ([⟨some "notes/a".toList⟩] ++ ⟨none⟩ :: [⟨some "notes/b".toList⟩]) =
      pageNames stE "notes".toList ([⟨some "notes/a".toList⟩] ++ [⟨some "notes/b".toList⟩]) ∧
    LogEvent.warnMissingKey ⟨none⟩ ∈
      pageLog stE "notes".toList
        ([⟨some "notes/a".toList⟩] ++ ⟨none⟩ :: [⟨some "notes/b".toList⟩]) :=
  c9_missing_key_policy stE "notes".toList ⟨none⟩ [⟨some "notes/a".toList⟩]
    [⟨some "notes/b".toList⟩] ["a".toList] rfl rfl

/-! ## C1, C2: the pagination loop -/

/-- A chain of successful responses the client serves when driven from
`req`: each response but the last carries a continuation token, each
follow-up request is the previous request with that token attached, and
the last response carries no token. -/
inductive RespChain (client : ListClient) : ListObjectsRequest → List ListObjectsResponse → Prop
  | last (req : ListObjectsRequest) (resp : ListObjectsResponse) :
      client req = .ok resp → resp.nextContinuationToken = none →
      RespChain client req [resp]
  | more (req : ListObjectsRequest) (resp : ListObjectsResponse) (t : Str)
      (rest : List ListObjectsResponse) :
      client req = .ok resp → resp.nextContinuationToken = some t →
      RespChain client { req with continuationToken := some t } rest →
      RespChain client req (resp :: rest)

/-- The requests the loop issues along a chain of responses: the first is
`req` itself, and after a response carrying a continuation token the next
request is the previous one with that token attached. -/
def expectedReqs (req : ListObjectsRequest) : List ListObjectsResponse → List ListObjectsRequest
  | [] => []
  | resp :: rest =>
    req ::
      (match resp.nextContinuationToken with
       | some t => expectedReqs { req with continuationToken := some t } rest
       | none => expectedReqs req rest)

theorem expectedReqs_length (resps : List ListObjectsResponse) :
    ∀ req, (expectedReqs req resps).length = resps.length := by
  induction resps with
  | nil => intro req; rfl
  | cons resp rest ih =>
    intro req
    cases h : resp.nextContinuationToken with
    | some t => simp [expectedReqs, h, ih]
    | none => simp [expectedReqs, h, ih]

theorem expectedReqs_fields (resps : List ListObjectsResponse) :
    ∀ req r, r ∈ expectedReqs req resps →
      r.reqPrefix = req.reqPrefix ∧ r.bucket = req.bucket := by
  induction resps with
  | nil => intro req r hr; exact absurd hr (List.not_mem_nil r)
  | cons resp rest ih =>
    intro req r hr
    cases h : resp.nextContinuationToken with
    | some t =>
      simp only [expectedReqs, h, List.mem_cons] at hr
      rcases hr with rfl | hr
      · exact ⟨rfl, rfl⟩
      · exact ih { req with continuationToken := some t } r hr
    | none =>
      simp only [expectedReqs, h, List.mem_cons] at hr
      rcases hr with rfl | hr
      · exact ⟨rfl, rfl⟩
      · exact ih req r hr

theorem listLoop_chain (client : ListClient) (st : S3Storage) (d : Str)
    (req : ListObjectsRequest) (resps : List ListObjectsResponse) (pages : List (List Str))
    (hchain : RespChain client req resps)
    (hpages : List.Forall₂ (fun resp ns => contentsNames st d resp = Except.ok ns) resps pages) :
    listLoop client st d req resps.length =
      some (expectedReqs req resps, Except.ok pages.flatten) := by
  induction hchain generalizing pages with
  | last req resp hc ht =>
    cases hpages with
    | cons hn htl =>
      cases htl
      simp [listLoop, hc, hn, ht, expectedReqs]
  | more req resp t rest hc ht _ ih =>
    cases hpages with
    | cons hn htl =>
      simp [listLoop, hc, hn, ht, ih _ htl, expectedReqs, Except.map]

/-- C1: `list(dir_name)` drives pagination to exhaustion.  Whenever the
client serves a chain of responses from the initial request scoped to
`make_prefix(dir_name)` — each follow-up request being the previous one
with the response's continuation token attached, stopping at the first
response without a token — `list` issues exactly the requests of that
chain (one per page, the first without a token, all scoped to the same
prefix and bucket) and returns the logical names of all pages
concatenated in request order, without deduplication or re-sorting. -/
theorem c1_list_pagination (st : S3Storage) (client : ListClient) (d : Str)
    (resps : List ListObjectsResponse) (pages : List (List Str))
    (hchain : RespChain client (initReq st d) resps)
    (hpages : List.Forall₂ (fun resp ns => contentsNames st d resp = Except.ok ns) resps pages) :
    S3Storage.list st client d resps.length =
      some (expectedReqs (initReq st d) resps, Except.ok pages.flatten) ∧
    (expectedReqs (initReq st d) resps).length = resps.length ∧
    (initReq st d).continuationToken = none ∧
    (initReq st d).reqPrefix = makePrefix st d ∧
    ∀ r ∈ expectedReqs (initReq st d) resps,
      r.reqPrefix = makePrefix st d ∧ r.bucket = st.bucket :=
  ⟨listLoop_chain client st d _ resps pages hchain hpages,
    expectedReqs_length resps _, rfl, rfl,
    fun r hr => expectedReqs_fields resps _ r hr⟩

/-- First page of the spec's two-page listing scenario: two keys and a
continuation token. -/
def page1 : ListObjectsResponse :=
  ⟨some [⟨some "notes/a".toList⟩, ⟨some "notes/b".toList⟩], some "T1".toList⟩

/-- Second page of the spec's two-page listing scenario: two keys, no
continuation token. -/
def page2 : ListObjectsResponse :=
  ⟨some [⟨some "notes/c".toList⟩, ⟨some "notes/d".toList⟩], none⟩

/-- A client serving `page1` to the token-less request and `page2` to any
request carrying a token. -/
def twoPageClient : ListClient := fun req =>
  match req.continuationToken with
  | none => .ok page1
  | some _ => .ok page2

/-- Witness for C1: two pages of two keys each, with a continuation token
on the first page, yield all four logical names in page order using
exactly two underlying requests. -/
theorem c1_list_pagination_witness :
    S3Storage.list stE twoPageClient "notes".toList
        ([page1, page2] : List ListObjectsResponse).length =
      some (expectedReqs (initReq stE "notes".toList) [page1, page2],
        Except.ok ([["a".toList, "b".toList], ["c".toList, "d".toList]] : List (List Str)).flatten) ∧
    (expectedReqs (initReq stE "notes".toList) [page1, page2]).length =
      ([page1, page2] : List ListObjectsResponse).length ∧
    (initReq stE "notes".toList).continuationToken = none ∧
    (initReq stE "notes".toList).reqPrefix = makePrefix stE "notes".toList ∧
    ∀ r ∈ expectedReqs (initReq stE "notes".toList) [page1, page2],
      r.reqPrefix = makePrefix stE "notes".toList ∧ r.bucket = stE.bucket :=
  c1_list_pagination stE twoPageClient "notes".toList [page1, page2]
    [["a".toList, "b".toList], ["c".toList, "d".toList]]
    (RespChain.more _ page1 "T1".toList [page2] rfl rfl (RespChain.last _ page2 rfl rfl))
    (List.Forall₂.cons rfl (List.Forall₂.cons rfl List.Forall₂.nil))

/-- A run of the client that fails when driven from `req`: after `n`
successful pages chained by continuation tokens, the client either
returns an error or serves a page with an entry whose key cannot be
prefix-stripped. -/
inductive FailChain (client : ListClient) (st : S3Storage) (d : Str) :
    ListObjectsRequest → Nat → Prop
  | clientErr (req : ListObjectsRequest) (e : SdkError) :
      client req = .error e → FailChain client st d req 0
  | stripErr (req : ListObjectsRequest) (resp : ListObjectsResponse) (e : IdxError) :
      client req = .ok resp → contentsNames st d resp = .error e →
      FailChain client st d req 0
  | step (req : ListObjectsRequest) (resp : ListObjectsResponse) (ns : List Str) (t : Str)
      (n : Nat) :
      client req = .ok resp → contentsNames st d resp = .ok ns →
      resp.nextContinuationToken = some t →
      FailChain client st d { req with continuationToken := some t } n →
      FailChain client st d req (n + 1)

theorem listLoop_fail (client : ListClient) (st : S3Storage) (d : Str)
    (req : ListObjectsRequest) (n : Nat) (hfail : FailChain client st d req n) :
    ∀ fuel, n < fuel → ∃ reqs msg,
      listLoop client st d req fuel = some (reqs, Except.error (IdxError.storageError msg)) := by
  induction hfail with
  | clientErr req e hc =>
    intro fuel hf
    obtain ⟨m, rfl⟩ : ∃ m, fuel = m + 1 := ⟨fuel - 1, by omega⟩
    exact ⟨[req], e, by simp [listLoop, hc, IdxError.storageErrorOf]⟩
  | stripErr req resp e hc hn =>
    intro fuel hf
    obtain ⟨m, rfl⟩ : ∃ m, fuel = m + 1 := ⟨fuel - 1, by omega⟩
    cases e with
    | storageError msg => exact ⟨[req], msg, by simp [listLoop, hc, hn]⟩
  | step req resp ns t n hc hn ht _ ih =>
    intro fuel hf
    obtain ⟨m, rfl⟩ : ∃ m, fuel = m + 1 := ⟨fuel - 1, by omega⟩
    obtain ⟨reqs, msg, hrec⟩ := ih m (by omega)
    exact ⟨req :: reqs, msg, by simp [listLoop, hc, hn, ht, hrec, Except.map]⟩

/-- C2: `list` is all-or-nothing.  If any underlying request fails at any
page, or any returned key cannot be prefix-stripped, the whole call fails
with the error kind `StorageError`, and no accumulated names are ever
returned to the caller. -/
theorem c2_list_all_or_nothing (st : S3Storage) (client : ListClient) (d : Str) (n fuel : Nat)
    (hfail : FailChain client st d (initReq st d) n) (hfuel : n < fuel) :
    ∃ reqs msg,
      S3Storage.list st client d fuel = some (reqs, Except.error (IdxError.storageError msg)) ∧
      ∀ reqs' names, S3Storage.list st client d fuel ≠ some (reqs', Except.ok names) := by
  obtain ⟨reqs, msg, h⟩ := listLoop_fail client st d _ n hfail fuel hfuel
  refine ⟨reqs, msg, h, fun reqs' names hok => ?_⟩
  rw [S3Storage.list] at hok
  rw [h] at hok
  simp at hok

/-- A client serving `page1` first and failing on the continuation
request. -/
def failClient : ListClient := fun req =>
  match req.continuationToken with
  | none => .ok page1
  | some _ => .error "boom".toList

/-- Witness for C2: the first page succeeds with a continuation token, the
second underlying request fails, and the whole call fails with
`StorageError`, discarding the two names of the first page. -/
theorem c2_list_all_or_nothing_witness :
    ∃ reqs msg,
      S3Storage.list stE failClient "notes".toList 2 =
        some (reqs, Except.error (IdxError.storageError msg)) ∧
      ∀ reqs' names,
        S3Storage.list stE failClient "notes".toList 2 ≠ some (reqs', Except.ok names) :=
  c2_list_all_or_nothing stE failClient "notes".toList 1 2
    (FailChain.step _ page1 ["a".toList, "b".toList] "T1".toList 0 rfl rfl rfl
      (FailChain.clientErr _ "boom".toList rfl))
    (by omega)
